import Mathlib

/-!
Verification of the KanVis core against its specification.

The data model and operations below are shallow embeddings of the
TypeScript sources: `src/models/Window.ts`, `src/models/Column.ts`,
`src/models/Board.ts`, `src/models/EventHistory.ts`,
`src/models/validators.ts`, `src/services/BoardService.ts` (V5 variant
with history and staleness guard) and the Replicated Document layer of
`src/services/BoardSync.ts`.  Impure calls to `Date.now()` become an
explicit `now : Nat` argument.  JavaScript numbers holding orders are
modelled as `Int` (all operations performed on them are integral);
timestamps as `Nat`.
-/

namespace KanVis

/-- A window/card record, from `src/models/Window.ts`. -/
structure Window where
  id : String
  name : String
  path : String
  branch : Option String := none
  columnId : String
  order : Int
  isOpen : Bool
  lastActiveAt : Nat
  createdAt : Nat
  color : Option String := none
  notes : Option String := none
deriving DecidableEq, Repr

/-- A kanban column, from `src/models/Column.ts`. -/
structure Column where
  id : String
  name : String
  order : Int
  color : Option String := none
deriving DecidableEq, Repr

/-- The board aggregate, from `src/models/Board.ts` (`BoardState`). -/
structure BoardState where
  windows : List Window
  columns : List Column
  version : Nat
  lastModifiedAt : Nat
deriving DecidableEq, Repr

/-- `findWindow` from `src/models/Board.ts`: first window with the id. -/
def findWindow (board : BoardState) (windowId : String) : Option Window :=
  board.windows.find? (fun w => w.id = windowId)

/-- Stable insertion of a window into a list sorted by ascending `order`
(auxiliary for `getWindowsInColumn`, embedding the comparator
`(a, b) => a.order - b.order`). -/
def insertByOrder (w : Window) : List Window → List Window
  | [] => [w]
  | x :: xs => if x.order ≤ w.order then x :: insertByOrder w xs else w :: x :: xs

/-- Stable sort by ascending `order` (auxiliary for `getWindowsInColumn`). -/
def sortByOrder : List Window → List Window
  | [] => []
  | x :: xs => insertByOrder x (sortByOrder xs)

/-- `getWindowsInColumn` from `src/models/Board.ts`: the windows of one
column, sorted by ascending `order`. -/
def getWindowsInColumn (board : BoardState) (columnId : String) : List Window :=
  sortByOrder (board.windows.filter (fun w => w.columnId = columnId))

/-- `upsertWindow` from `src/models/Board.ts`: replace the first window
with the same id positionally, else append; always bump the board's
`lastModifiedAt`. -/
def upsertWindow (board : BoardState) (window : Window) (now : Nat) : BoardState :=
  let windows :=
    match board.windows.findIdx? (fun w => w.id = window.id) with
    | some i => board.windows.set i window
    | none => board.windows ++ [window]
  { board with windows := windows, lastModifiedAt := now }

/-- `removeWindow` from `src/models/Board.ts`. -/
def removeWindow (board : BoardState) (windowId : String) (now : Nat) : BoardState :=
  { board with
      windows := board.windows.filter (fun w => w.id ≠ windowId),
      lastModifiedAt := now }

/-- The per-window transformation applied by `moveWindow`'s single
`map` pass over the pre-move snapshot, given the found window `window`
(`src/models/Board.ts`, lines 99-116).  The branches are tried in the
source's order and are mutually exclusive by early return. -/
def moveAdjust (window : Window) (windowId toColumnId : String) (toOrder : Int)
    (now : Nat) (w : Window) : Window :=
  if w.id = windowId then
    { w with columnId := toColumnId, order := toOrder, lastActiveAt := now }
  else if window.columnId ≠ toColumnId ∧ w.columnId = window.columnId ∧
      w.order > window.order then
    { w with order := w.order - 1 }
  else if w.columnId = toColumnId ∧ w.order ≥ toOrder ∧ w.id ≠ windowId then
    { w with order := w.order + 1 }
  else
    w

/-- `moveWindow` from `src/models/Board.ts`: no-op when the window is not
found, otherwise one `map` pass over the pre-move snapshot. -/
def moveWindow (board : BoardState) (windowId toColumnId : String)
    (toOrder : Int) (now : Nat) : BoardState :=
  match findWindow board windowId with
  | none => board
  | some window =>
    { board with
        windows := board.windows.map (moveAdjust window windowId toColumnId toOrder now),
        lastModifiedAt := now }

/-- The per-record move transformation as the specification words it
(§4.1 `move`): the moved record gets the destination column, the target
order, and a refreshed `lastActiveAt`; every other record receives a
`-1` adjustment when its column is the source column, its pre-move order
exceeds the moved record's, and source and destination differ, and
independently a `+1` adjustment when its column is the destination
column and its pre-move order is ≥ the target order; both adjustments
are read off the pre-move snapshot and a record satisfying both
conditions receives both. -/
def specMoveAdjust (window : Window) (windowId toColumnId : String) (toOrder : Int)
    (now : Nat) (w : Window) : Window :=
  if w.id = windowId then
    { w with columnId := toColumnId, order := toOrder, lastActiveAt := now }
  else
    { w with order := w.order
        - (if window.columnId ≠ toColumnId ∧ w.columnId = window.columnId ∧
            w.order > window.order then 1 else 0)
        + (if w.columnId = toColumnId ∧ w.order ≥ toOrder then 1 else 0) }

/-- First-match positional replacement, else append: the list-level
behaviour of `upsertWindow` (auxiliary, used to reason about
`List.findIdx?` + `List.set`). -/
def replaceOrAppend : List Window → Window → List Window
  | [], w => [w]
  | x :: xs, w => if x.id = w.id then w :: xs else x :: replaceOrAppend xs w

/-- The order-uniqueness invariant on a window list, together with id
uniqueness (§3: `id` is an opaque unique string): no two distinct
records of the same column share an `order` value. -/
def WindowsValid (ws : List Window) : Prop :=
  (ws.map Window.id).Nodup ∧
  ∀ a ∈ ws, ∀ b ∈ ws, a.id ≠ b.id → a.columnId = b.columnId → a.order ≠ b.order

instance (ws : List Window) : Decidable (WindowsValid ws) := by
  unfold WindowsValid
  infer_instance

/-- The order-uniqueness invariant on a board. -/
def validBoard (b : BoardState) : Prop := WindowsValid b.windows

instance (b : BoardState) : Decidable (validBoard b) := by
  unfold validBoard
  infer_instance

/-- A board-level operation (§4.1), carrying the `Date.now()` value its
execution observes. -/
inductive BoardOp where
  | upsert (window : Window) (now : Nat)
  | remove (windowId : String) (now : Nat)
  | move (windowId toColumnId : String) (toOrder : Int) (now : Nat)
deriving DecidableEq, Repr

def applyOp (b : BoardState) : BoardOp → BoardState
  | .upsert w now => upsertWindow b w now
  | .remove wid now => removeWindow b wid now
  | .move wid col ord now => moveWindow b wid col ord now

def applyOps (b : BoardState) (ops : List BoardOp) : BoardState :=
  ops.foldl applyOp b

/-- The side condition under which an operation cannot manufacture a
duplicate order: an upserted record must not collide with a distinct
surviving record of the same column.  `remove` and `move` need no
condition. -/
def opSafe (b : BoardState) : BoardOp → Prop
  | .upsert w _ => ∀ x ∈ b.windows, x.id ≠ w.id → x.columnId = w.columnId → x.order ≠ w.order
  | .remove _ _ => True
  | .move _ _ _ _ => True

instance (b : BoardState) (op : BoardOp) : Decidable (opSafe b op) := by
  unfold opSafe
  cases op <;> infer_instance

/-- `opSafe` holding at every step of a sequence. -/
def SafeSeq (b : BoardState) : List BoardOp → Prop
  | [] => True
  | op :: rest => opSafe b op ∧ SafeSeq (applyOp b op) rest

instance (b : BoardState) (ops : List BoardOp) : Decidable (SafeSeq b ops) := by
  induction ops generalizing b with
  | nil => exact inferInstanceAs (Decidable True)
  | cons op rest ih =>
    have : Decidable (SafeSeq (applyOp b op) rest) := ih (applyOp b op)
    exact inferInstanceAs (Decidable (_ ∧ _))

/-- A partial change-set over a window (`Partial<Window>` in
`src/models/EventHistory.ts`). -/
structure WindowPatch where
  id : Option String := none
  name : Option String := none
  path : Option String := none
  branch : Option String := none
  columnId : Option String := none
  order : Option Int := none
  isOpen : Option Bool := none
  lastActiveAt : Option Nat := none
  createdAt : Option Nat := none
deriving DecidableEq, Repr

/-- `KanVisEvent` from `src/models/EventHistory.ts`. -/
inductive KanVisEvent where
  | window_added (window : Window) (timestamp : Nat)
  | window_removed (windowId : String) (timestamp : Nat)
  | window_moved (windowId fromCol toCol : String) (fromOrder toOrder : Int)
      (timestamp : Nat)
  | window_updated (windowId : String) (changes : WindowPatch) (timestamp : Nat)
deriving DecidableEq, Repr

/-- The `EventHistory` state (`src/models/EventHistory.ts`): a bounded
event list with a current position (`-1` = before first event). -/
structure EventHistory where
  events : List KanVisEvent := []
  position : Int := -1
  maxSize : Nat := 100
deriving DecidableEq, Repr

/-- JavaScript `array.slice(0, e)`: a negative end index counts from the
end of the array (auxiliary for `recordEvent`). -/
def jsSliceToEnd {α : Type} (l : List α) (e : Int) : List α :=
  if e < 0 then l.take (l.length - e.natAbs) else l.take e.toNat

/-- `recordEvent` from `src/models/EventHistory.ts`: truncate the redo
tail, append, advance the position, then trim from the front when the
length exceeds `maxSize`. -/
def recordEvent (h : EventHistory) (e : KanVisEvent) : EventHistory :=
  let events := jsSliceToEnd h.events (h.position + 1)
  let events := events ++ [e]
  let position := h.position + 1
  if events.length > h.maxSize then
    let excess := events.length - h.maxSize
    { h with events := events.drop excess, position := position - (excess : Int) }
  else
    { h with events := events, position := position }

/-- `canUndo` from `src/models/EventHistory.ts`. -/
def canUndo (h : EventHistory) : Bool := h.position ≥ 0

/-- `canRedo` from `src/models/EventHistory.ts`. -/
def canRedo (h : EventHistory) : Bool := h.position < (h.events.length : Int) - 1

/-- `undo` from `src/models/EventHistory.ts`: the returned event paired
with the successor state (the TypeScript method mutates `this` and
returns the event; `events[position]` on an out-of-range index yields
`undefined`, here `none`). -/
def undo (h : EventHistory) : Option KanVisEvent × EventHistory :=
  if canUndo h then
    (h.events.get? h.position.toNat, { h with position := h.position - 1 })
  else
    (none, h)

/-- `redo` from `src/models/EventHistory.ts`: advances the position and
returns the event now at it. -/
def redo (h : EventHistory) : Option KanVisEvent × EventHistory :=
  if canRedo h then
    (h.events.get? (h.position + 1).toNat, { h with position := h.position + 1 })
  else
    (none, h)

/-- The field-path/message issues collected by `WindowValidator.safeParse`
(`src/models/validators.ts`): `id` and `columnId` are branded
`z.string().min(1)`, `order` is `z.number().int().min(0)`, `path` and
`name` are `z.string().min(1)`, `branch` is an optional string,
`lastActiveAt` and `createdAt` are `z.number().int().positive()`.
Integrality of the numeric fields is carried by the types of the
embedding (`Int`/`Nat`); the message texts abbreviate zod's. -/
def windowIssues (w : Window) : List (String × String) :=
  (if 1 ≤ w.id.length then [] else [("id", "String must contain at least 1 character(s)")]) ++
  (if 1 ≤ w.columnId.length then [] else [("columnId", "String must contain at least 1 character(s)")]) ++
  (if 0 ≤ w.order then [] else [("order", "Number must be greater than or equal to 0")]) ++
  (if 1 ≤ w.path.length then [] else [("path", "String must contain at least 1 character(s)")]) ++
  (if 1 ≤ w.name.length then [] else [("name", "String must contain at least 1 character(s)")]) ++
  (if 0 < w.lastActiveAt then [] else [("lastActiveAt", "Number must be greater than 0")]) ++
  (if 0 < w.createdAt then [] else [("createdAt", "Number must be greater than 0")])

/-- The result shape of `validateWindow` (`src/models/validators.ts`). -/
inductive ValidationResult where
  | valid (data : Window)
  | invalid (errors : List (String × String))
deriving DecidableEq, Repr

/-- `validateWindow` from `src/models/validators.ts`: success carries the
record, failure the non-empty issue list. -/
def validateWindow (w : Window) : ValidationResult :=
  if windowIssues w = [] then .valid w else .invalid (windowIssues w)

/-- The in-memory state of the V5 `BoardService`
(`src/services/BoardService.ts`, part with history): the authoritative
board snapshot, the event history, and the registered `onStateChange`
listeners (identified by opaque ids). -/
structure BoardServiceState where
  state : BoardState
  history : EventHistory
  listeners : List Nat
deriving DecidableEq, Repr

/-- The `storage.watch` callback registered by `BoardService.initialize`
(V5): an external snapshot whose `lastModifiedAt` is not newer than the
local one is discarded; otherwise it is adopted and every listener is
notified with it.  Returns the successor service state and the list of
(listener, delivered state) notifications. -/
def watchCallback (svc : BoardServiceState) (newState : BoardState) :
    BoardServiceState × List (Nat × BoardState) :=
  if newState.lastModifiedAt ≤ svc.state.lastModifiedAt then
    (svc, [])
  else
    ({ svc with state := newState },
     svc.listeners.map (fun l => (l, newState)))

/-- `BoardService.undo` (V5): pop the history; on `window_added` remove
the window, on `window_moved` move it back, on `window_removed` and
`window_updated` leave the board untouched; then save and notify.
Returns (result, successor state, saved snapshots, notifications). -/
def serviceUndo (svc : BoardServiceState) (now : Nat) :
    Bool × BoardServiceState × List BoardState × List (Nat × BoardState) :=
  match undo svc.history with
  | (none, h') => (false, { svc with history := h' }, [], [])
  | (some e, h') =>
    let st :=
      match e with
      | .window_added w _ => removeWindow svc.state w.id now
      | .window_removed _ _ => svc.state
      | .window_moved wid fromCol _toCol fromOrder _toOrder _ =>
          moveWindow svc.state wid fromCol fromOrder now
      | .window_updated _ _ _ => svc.state
    (true, { svc with history := h', state := st }, [st],
     svc.listeners.map (fun l => (l, st)))

/-- Modelled from the spec: one operation of the Replicated Document's
causal history (§4.3).  The merge engine itself is the third-party Yjs
library (`Y.applyUpdate`/`Y.encodeStateAsUpdate` called from
`src/services/BoardSync.ts`), whose code is not part of this repository;
per §4.3 the document is a keyed last-writer-wins mapping from record id
to record, and per §6 an update carries the document's full causal
history.  An operation is a put (`value = some w`) or delete
(`value = none`) of one key, stamped with the originating replica and
its clock. -/
structure YOp where
  replica : Nat
  clock : Nat
  key : String
  value : Option Window
deriving DecidableEq, Repr

/-- Modelled from the spec: the Replicated Document's state — its full
causal history as a finite set of operations (§4.3, §6). -/
abbrev YDoc := Finset YOp

/-- Modelled from the spec: `getUpdate` exports the document's full
causal history as the update payload (§4.3). -/
def getUpdate (d : YDoc) : YDoc := d

/-- Modelled from the spec: merging an update unions the received causal
history into the local one (§4.3). -/
def applyUpdate (d u : YDoc) : YDoc := d ∪ u

/-- Modelled from the spec: the deterministic last-writer tie-break —
a later clock wins, equal clocks are broken by the replica-assigned
identifier (§4.3). -/
abbrev yOpLE (a b : YOp) : Prop :=
  a.clock < b.clock ∨ (a.clock = b.clock ∧ a.replica ≤ b.replica)

/-- Modelled from the spec: `o` is the last writer for its key in `d`. -/
abbrev lwwWins (d : YDoc) (o : YOp) : Prop :=
  ∀ o' ∈ d, o'.key = o.key → yOpLE o' o

/-- Placeholder record used only to strip the `Option` from a winning
put operation's payload (never observable: the payload is known to be
`some`). -/
def defaultWindow : Window :=
  { id := "", name := "", path := "", columnId := "", order := 0,
    isOpen := false, lastActiveAt := 0, createdAt := 0 }

/-- Modelled from the spec: the window mapping read out of the document
by `extractState` — for each key the last writer's record, deleted keys
absent (§4.3). -/
def extractWindows (d : YDoc) : Finset Window :=
  (d.filter fun o => lwwWins d o ∧ o.value.isSome).image
    (fun o => o.value.getD defaultWindow)

/-- Byte-level decoders for the opaque update blob (§6: the wire format
is an implementation detail; this one is length-prefixed).  A `Nat`
stands for one byte-level token. -/
def decodeNat : List Nat → Option (Nat × List Nat)
  | [] => none
  | n :: rest => some (n, rest)

def decodeInt : List Nat → Option (Int × List Nat)
  | sign :: mag :: rest =>
    if sign = 0 then some ((mag : Int), rest)
    else if sign = 1 then some (-(mag : Int), rest)
    else none
  | _ => none

def decodeBool : List Nat → Option (Bool × List Nat)
  | b :: rest => if b = 0 then some (false, rest) else if b = 1 then some (true, rest) else none
  | [] => none

def decodeString : List Nat → Option (String × List Nat)
  | [] => none
  | n :: rest =>
    if n ≤ rest.length then
      some (String.mk ((rest.take n).map Char.ofNat), rest.drop n)
    else
      none

def decodeOptionString : List Nat → Option (Option String × List Nat)
  | [] => none
  | tag :: rest =>
    if tag = 0 then some (none, rest)
    else if tag = 1 then (decodeString rest).map (fun p => (some p.1, p.2))
    else none

def decodeWindow (bs : List Nat) : Option (Window × List Nat) := do
  let (id, bs) ← decodeString bs
  let (name, bs) ← decodeString bs
  let (path, bs) ← decodeString bs
  let (branch, bs) ← decodeOptionString bs
  let (columnId, bs) ← decodeString bs
  let (order, bs) ← decodeInt bs
  let (isOpen, bs) ← decodeBool bs
  let (lastActiveAt, bs) ← decodeNat bs
  let (createdAt, bs) ← decodeNat bs
  let (color, bs) ← decodeOptionString bs
  let (notes, bs) ← decodeOptionString bs
  pure ({ id, name, path, branch, columnId, order, isOpen,
          lastActiveAt, createdAt, color, notes }, bs)

def decodeOp (bs : List Nat) : Option (YOp × List Nat) := do
  let (replica, bs) ← decodeNat bs
  let (clock, bs) ← decodeNat bs
  let (key, bs) ← decodeString bs
  match bs with
  | 0 :: bs => pure ({ replica, clock, key, value := none }, bs)
  | 1 :: bs => do
    let (w, bs) ← decodeWindow bs
    pure ({ replica, clock, key, value := some w }, bs)
  | _ => none

def decodeOps : Nat → List Nat → Option (List YOp × List Nat)
  | 0, bs => some ([], bs)
  | n + 1, bs => do
    let (op, bs) ← decodeOp bs
    let (ops, bs) ← decodeOps n bs
    pure (op :: ops, bs)

/-- Modelled from the spec: decode an update blob — a count-prefixed
sequence of operations consuming the whole input — into a causal
history; a malformed blob decodes to `none`. -/
def decodeUpdate (bs : List Nat) : Option YDoc :=
  match bs with
  | [] => none
  | n :: rest =>
    match decodeOps n rest with
    | some (ops, []) => some ops.toFinset
    | _ => none

/-- Modelled from the spec: `applyUpdate` on raw bytes (§7(d)) — a
malformed blob is rejected and the document's prior state is left
intact; a well-formed one is merged. -/
def applyUpdateBytes (d : YDoc) (bs : List Nat) : YDoc :=
  match decodeUpdate bs with
  | none => d
  | some u => applyUpdate d u

/-- `DEFAULT_COLUMNS` from `src/models/Column.ts`. -/
def DEFAULT_COLUMNS : List Column :=
  [{ id := "backlog", name := "Backlog", order := 0, color := some "#94a3b8" },
   { id := "current", name := "Current", order := 1, color := some "#3b82f6" },
   { id := "priorities", name := "Priorities", order := 2, color := some "#f59e0b" }]

/-- `createWindow` from `src/models/Window.ts`, with `Date.now()` made
explicit. -/
def createWindow (id name path columnId : String) (order : Int) (now : Nat) : Window :=
  { id, name, path, columnId, order, isOpen := true,
    lastActiveAt := now, createdAt := now }

/-- The board of the spec's move-correctness example: column `backlog`
holding `w1`(order 0), `w2`(order 1), `w3`(order 2). -/
def exBoard3 : BoardState :=
  { windows := [createWindow "w1" "Test1" "/t1" "backlog" 0 1,
                createWindow "w2" "Test2" "/t2" "backlog" 1 1,
                createWindow "w3" "Test3" "/t3" "backlog" 2 1],
    columns := DEFAULT_COLUMNS, version := 1, lastModifiedAt := 1 }

/-- A valid single-window board, base of the order-uniqueness
counterexample. -/
def cexBoard1 : BoardState :=
  { windows := [createWindow "w1" "Test1" "/t1" "backlog" 0 1],
    columns := DEFAULT_COLUMNS, version := 1, lastModifiedAt := 1 }

/-- A second window colliding with `cexBoard1`'s window on
(column, order). -/
def cexWin2 : Window := createWindow "w2" "Test2" "/t2" "backlog" 0 2

/-- An otherwise well-formed record whose `path` is the empty string. -/
def exEmptyPathWin : Window :=
  { id := "w1", name := "Test", path := "", columnId := "backlog",
    order := 0, isOpen := true, lastActiveAt := 1, createdAt := 1 }

/-- A service holding a local snapshot with `lastModifiedAt = 100` and
one registered listener (the spec's staleness-guard example). -/
def exService : BoardServiceState :=
  { state := { windows := [], columns := [], version := 1, lastModifiedAt := 100 },
    history := {}, listeners := [7] }

/-- An external snapshot with `lastModifiedAt = 100` (an echo). -/
def exStale : BoardState :=
  { windows := [], columns := [], version := 1, lastModifiedAt := 100 }

/-- An external snapshot with `lastModifiedAt = 150` (a genuine change). -/
def exFresh : BoardState :=
  { windows := [], columns := [], version := 1, lastModifiedAt := 150 }

/-- A service whose history's current event is a `window_removed`. -/
def exRemovalService : BoardServiceState :=
  { state := cexBoard1,
    history := { events := [.window_removed "w9" 1], position := 0, maxSize := 100 },
    listeners := [3, 4] }

/-- A three-event history (events `a`, `b`, `c`), position at `c`. -/
def exHistory3 : EventHistory :=
  { events := [.window_removed "a" 1, .window_removed "b" 2, .window_removed "c" 3],
    position := 2, maxSize := 100 }

theorem moveAdjust_eq_specMoveAdjust (window : Window) (windowId toColumnId : String)
    (toOrder : Int) (now : Nat) (w : Window) :
    moveAdjust window windowId toColumnId toOrder now w =
      specMoveAdjust window windowId toColumnId toOrder now w := by
  unfold moveAdjust specMoveAdjust
  by_cases hid : w.id = windowId
  · rw [if_pos hid, if_pos hid]
  · rw [if_neg hid, if_neg hid]
    by_cases hdec : window.columnId ≠ toColumnId ∧ w.columnId = window.columnId ∧
        w.order > window.order
    · have hninc : ¬ (w.columnId = toColumnId ∧ w.order ≥ toOrder) := by
        rintro ⟨hc, -⟩
        exact hdec.1 (hdec.2.1 ▸ hc)
      rw [if_pos hdec, if_pos hdec, if_neg hninc]
      have h : w.order - 1 = w.order - 1 + 0 := by omega
      exact congrArg (fun o => { w with order := o }) h
    · rw [if_neg hdec, if_neg hdec]
      by_cases hinc : w.columnId = toColumnId ∧ w.order ≥ toOrder ∧ w.id ≠ windowId
      · have hinc' : w.columnId = toColumnId ∧ w.order ≥ toOrder := ⟨hinc.1, hinc.2.1⟩
        rw [if_pos hinc, if_pos hinc']
        have h : w.order + 1 = w.order - 0 + 1 := by omega
        exact congrArg (fun o => { w with order := o }) h
      · have hninc : ¬ (w.columnId = toColumnId ∧ w.order ≥ toOrder) := by
          rintro ⟨hc, ho⟩
          exact hinc ⟨hc, ho, hid⟩
        rw [if_neg hinc, if_neg hninc]
        have h : w.order - 0 + 0 = w.order := by omega
        rw [h]

/-- C1: merging an update into the Replicated Document is idempotent —
applying the same update bytes twice equals applying them once — and
commutative: two updates exported by replicas applied in either order
yield the same document and the same extracted window mapping.
(Modelled from the spec: the merge engine is the third-party Yjs
library; §4.3's causal-history union model is used.) -/
theorem C1_merge_idempotent_commutative (d d1 d2 : YDoc) (bs : List Nat) :
    applyUpdateBytes (applyUpdateBytes d bs) bs = applyUpdateBytes d bs ∧
    applyUpdate (applyUpdate d (getUpdate d1)) (getUpdate d2)
      = applyUpdate (applyUpdate d (getUpdate d2)) (getUpdate d1) ∧
    extractWindows (applyUpdate (applyUpdate d (getUpdate d1)) (getUpdate d2))
      = extractWindows (applyUpdate (applyUpdate d (getUpdate d2)) (getUpdate d1)) := by
  refine ⟨?_, ?_, ?_⟩
  · unfold applyUpdateBytes
    cases hdec : decodeUpdate bs with
    | none => rfl
    | some u =>
      show applyUpdate (applyUpdate d u) u = applyUpdate d u
      unfold applyUpdate
      rw [Finset.union_assoc, Finset.union_self]
  · exact Finset.union_right_comm d (getUpdate d1) (getUpdate d2)
  · exact congrArg extractWindows (Finset.union_right_comm d (getUpdate d1) (getUpdate d2))

/-- C2: the watch callback of `BoardService.initialize` discards an
external snapshot whose `lastModifiedAt` is not greater than the local
one, leaving state and observers untouched; a strictly newer snapshot is
adopted and every registered observer is notified exactly once. -/
theorem C2_watch_staleness_guard (svc : BoardServiceState) (ext : BoardState) :
    (ext.lastModifiedAt ≤ svc.state.lastModifiedAt →
      watchCallback svc ext = (svc, [])) ∧
    (svc.state.lastModifiedAt < ext.lastModifiedAt →
      (watchCallback svc ext).1 = { svc with state := ext } ∧
      (watchCallback svc ext).2 = svc.listeners.map (fun l => (l, ext)) ∧
      ∀ l, ((watchCallback svc ext).2.map Prod.fst).count l = svc.listeners.count l) := by
  constructor
  · intro h
    unfold watchCallback
    rw [if_pos h]
  · intro h
    unfold watchCallback
    rw [if_neg (not_le.mpr h)]
    refine ⟨rfl, rfl, fun l => ?_⟩
    have hcomp : (Prod.fst ∘ fun l : Nat => (l, ext)) = id := rfl
    rw [List.map_map, hcomp, List.map_id]

theorem C2_witness :
    watchCallback exService exStale = (exService, []) ∧
    (watchCallback exService exFresh).1 = { exService with state := exFresh } ∧
    (watchCallback exService exFresh).2 = [(7, exFresh)] := by
  refine ⟨(C2_watch_staleness_guard exService exStale).1 (by decide),
    ((C2_watch_staleness_guard exService exFresh).2 (by decide)).1, ?_⟩
  rw [((C2_watch_staleness_guard exService exFresh).2 (by decide)).2.1]
  rfl

/-- C3: when the target record is found, `moveWindow` is one `map` over
the pre-move snapshot by the specification's per-record transformation:
the moved record gets the destination column, the target order and a
fresh `lastActiveAt`; every other record is decremented when it sat in
the source column above the moved record's old order (unless source and
destination coincide), and independently incremented when it sits in the
destination column at or above the target order — both adjustments read
from the pre-move snapshot, and a record meeting both conditions would
receive both. -/
theorem C3_moveWindow_refines_spec (board : BoardState) (windowId toColumnId : String)
    (toOrder : Int) (now : Nat) (window : Window)
    (hfind : findWindow board windowId = some window) :
    moveWindow board windowId toColumnId toOrder now =
      { board with
          windows := board.windows.map
            (specMoveAdjust window windowId toColumnId toOrder now),
          lastModifiedAt := now } := by
  unfold moveWindow
  rw [hfind]
  have hm : board.windows.map (moveAdjust window windowId toColumnId toOrder now)
      = board.windows.map (specMoveAdjust window windowId toColumnId toOrder now) :=
    List.map_congr_left
      (fun a _ => moveAdjust_eq_specMoveAdjust window windowId toColumnId toOrder now a)
  show { board with
      windows := board.windows.map (moveAdjust window windowId toColumnId toOrder now),
      lastModifiedAt := now } = _
  rw [hm]

theorem C3_witness :
    moveWindow exBoard3 "w1" "current" 0 5 =
      { exBoard3 with
          windows := exBoard3.windows.map
            (specMoveAdjust (createWindow "w1" "Test1" "/t1" "backlog" 0 1)
              "w1" "current" 0 5),
          lastModifiedAt := 5 } :=
  C3_moveWindow_refines_spec exBoard3 "w1" "current" 0 5
    (createWindow "w1" "Test1" "/t1" "backlog" 0 1) (by rfl)

/-- C4: on the spec example — `backlog` holding `w1`(0), `w2`(1),
`w3`(2) — the code's `moveWindow(w1, "backlog", 2)` produces the column
order `[w2, w1, w3]`, not the `[w2, w3, w1]` the spec (and the
repository's own test in `Board.test.ts`) claims: the moved record lands
at order 2 while the incremented `w3` ends at order 3. -/
theorem C4_move_example_code_result :
    (getWindowsInColumn (moveWindow exBoard3 "w1" "backlog" 2 9) "backlog").map Window.id
      = ["w2", "w1", "w3"] ∧
    (getWindowsInColumn (moveWindow exBoard3 "w1" "backlog" 2 9) "backlog").map Window.id
      ≠ ["w2", "w3", "w1"] := by
  constructor
  · rfl
  · decide

/-- C6: a malformed update blob is rejected by the Replicated Document's
byte-level merge and the prior document state is left intact.  (Modelled
from the spec: the decoder stands in for the third-party Yjs codec.) -/
theorem C6_malformed_update_rejected (d : YDoc) (bs : List Nat)
    (h : decodeUpdate bs = none) : applyUpdateBytes d bs = d := by
  unfold applyUpdateBytes
  rw [h]

theorem C6_witness : decodeUpdate [1] = none ∧ applyUpdateBytes ∅ [1] = ∅ :=
  ⟨by rfl, C6_malformed_update_rejected ∅ [1] (by rfl)⟩

/-- C7: with maximum size 3, recording five events retains exactly the
three most recent, evicts the two oldest, and leaves the position at the
last retained event. -/
theorem C7_history_bound (e1 e2 e3 e4 e5 : KanVisEvent) :
    recordEvent (recordEvent (recordEvent (recordEvent (recordEvent
      { events := [], position := -1, maxSize := 3 } e1) e2) e3) e4) e5
      = { events := [e3, e4, e5], position := 2, maxSize := 3 } := by
  have h1 : recordEvent { events := [], position := -1, maxSize := 3 } e1
      = { events := [e1], position := 0, maxSize := 3 } := rfl
  have h2 : recordEvent { events := [e1], position := 0, maxSize := 3 } e2
      = { events := [e1, e2], position := 1, maxSize := 3 } := rfl
  have h3 : recordEvent { events := [e1, e2], position := 1, maxSize := 3 } e3
      = { events := [e1, e2, e3], position := 2, maxSize := 3 } := rfl
  have h4 : recordEvent { events := [e1, e2, e3], position := 2, maxSize := 3 } e4
      = { events := [e2, e3, e4], position := 2, maxSize := 3 } := rfl
  have h5 : recordEvent { events := [e2, e3, e4], position := 2, maxSize := 3 } e5
      = { events := [e3, e4, e5], position := 2, maxSize := 3 } := rfl
  rw [h1, h2, h3, h4, h5]

/-- C8: `canUndo` holds exactly when the position is ≥ 0 and `canRedo`
exactly when it is < length − 1; `undo` returns the event at the current
position and decrements it, and returns nothing when `canUndo` fails;
`redo` increments the position and returns the event at the new
position, and returns nothing when `canRedo` fails; and recording any
event leaves `canRedo` false (the redo tail is discarded). -/
theorem C8_undo_redo_semantics (h : EventHistory) (e : KanVisEvent)
    (hpos : -1 ≤ h.position) :
    (canUndo h = true ↔ 0 ≤ h.position) ∧
    (canRedo h = true ↔ h.position < (h.events.length : Int) - 1) ∧
    (canUndo h = true →
      undo h = (h.events.get? h.position.toNat, { h with position := h.position - 1 })) ∧
    (canUndo h = false → undo h = (none, h)) ∧
    (canRedo h = true →
      redo h = (h.events.get? (h.position + 1).toNat, { h with position := h.position + 1 })) ∧
    (canRedo h = false → redo h = (none, h)) ∧
    canRedo (recordEvent h e) = false := by
  refine ⟨?_, ?_, ?_, ?_, ?_, ?_, ?_⟩
  · simp [canUndo, ge_iff_le]
  · simp [canRedo]
  · intro hc
    unfold undo
    rw [if_pos hc]
  · intro hc
    unfold undo
    rw [if_neg (by simp [hc])]
  · intro hc
    unfold redo
    rw [if_pos hc]
  · intro hc
    unfold redo
    rw [if_neg (by simp [hc])]
  · simp only [recordEvent, jsSliceToEnd]
    have h1 : ¬ (h.position + 1 < 0) := by omega
    rw [if_neg h1]
    by_cases h2 : (h.events.take (h.position + 1).toNat ++ [e]).length > h.maxSize
    · rw [if_pos h2]
      simp only [canRedo, List.length_drop, List.length_append, List.length_take,
        List.length_cons, List.length_nil, decide_eq_false_iff_not, not_lt]
      push_cast
      omega
    · rw [if_neg h2]
      simp only [canRedo, List.length_append, List.length_take, List.length_cons,
        List.length_nil, decide_eq_false_iff_not, not_lt]
      push_cast
      omega

theorem C8_witness :
    undo exHistory3 = (some (.window_removed "c" 3), { exHistory3 with position := 1 }) ∧
    canRedo { exHistory3 with position := 1 } = true ∧
    canRedo (recordEvent { exHistory3 with position := 1 } (.window_removed "d" 4)) = false := by
  refine ⟨?_, by rfl, ?_⟩
  · have hu := (C8_undo_redo_semantics exHistory3 (.window_removed "d" 4)
      (by decide)).2.2.1 (by decide)
    rw [hu]
    rfl
  · exact (C8_undo_redo_semantics { exHistory3 with position := 1 }
      (.window_removed "d" 4) (by decide)).2.2.2.2.2.2

/-- C9: validation of an otherwise well-formed record with an empty
`path` fails — the validator requires `path` to be non-empty
(`z.string().min(1)`), contradicting the claim that `path` may be any
string. -/
theorem C9_cex_empty_path :
    validateWindow exEmptyPathWin =
      .invalid [("path", "String must contain at least 1 character(s)")] := by rfl

/-- C9 (amended): validation succeeds for every record that is
well-formed with a *non-empty* `path`, and fails with a non-empty list
of field-path/message errors when `order` is negative or `name` is
empty. -/
theorem C9_validation (w : Window) :
    (1 ≤ w.id.length → 1 ≤ w.columnId.length → 0 ≤ w.order → 1 ≤ w.path.length →
      1 ≤ w.name.length → 0 < w.lastActiveAt → 0 < w.createdAt →
      validateWindow w = .valid w) ∧
    (w.order < 0 ∨ w.name = "" →
      ∃ errs, validateWindow w = .invalid errs ∧ errs ≠ []) := by
  constructor
  · intro h1 h2 h3 h4 h5 h6 h7
    have hiss : windowIssues w = [] := by
      unfold windowIssues
      rw [if_pos h1, if_pos h2, if_pos h3, if_pos h4, if_pos h5, if_pos h6, if_pos h7]
      rfl
    unfold validateWindow
    rw [if_pos hiss]
  · intro hbad
    have hne : windowIssues w ≠ [] := by
      rcases hbad with horder | hname
      · have hmem : ("order", "Number must be greater than or equal to 0")
            ∈ windowIssues w := by
          unfold windowIssues
          rw [if_neg (by omega : ¬ (0 ≤ w.order))]
          simp
        exact List.ne_nil_of_mem hmem
      · have hlen : ¬ (1 ≤ w.name.length) := by
          rw [hname]
          decide
        have hmem : ("name", "String must contain at least 1 character(s)")
            ∈ windowIssues w := by
          unfold windowIssues
          rw [if_neg hlen]
          simp
        exact List.ne_nil_of_mem hmem
    refine ⟨windowIssues w, ?_, hne⟩
    unfold validateWindow
    rw [if_neg hne]

theorem C9_witness :
    validateWindow (createWindow "w1" "Test" "/t" "backlog" 0 1)
      = .valid (createWindow "w1" "Test" "/t" "backlog" 0 1) ∧
    ∃ errs, validateWindow (createWindow "w4" "" "/t" "backlog" (-1) 1)
      = .invalid errs ∧ errs ≠ [] :=
  ⟨(C9_validation (createWindow "w1" "Test" "/t" "backlog" 0 1)).1
      (by decide) (by decide) (by decide) (by decide) (by decide) (by decide) (by decide),
   (C9_validation (createWindow "w4" "" "/t" "backlog" (-1) 1)).2 (Or.inl (by decide))⟩

/-- C10: when the event popped by `BoardService.undo` is a
`window_removed`, the call reports success (`true`) yet leaves the board
snapshot entirely unchanged — the removed record is not restored — while
still persisting the unchanged snapshot and notifying every listener. -/
theorem C10_undo_removal_noop (svc : BoardServiceState) (now : Nat)
    (wid : String) (ts : Nat)
    (h : (undo svc.history).1 = some (.window_removed wid ts)) :
    serviceUndo svc now =
      (true, { svc with history := (undo svc.history).2 }, [svc.state],
       svc.listeners.map (fun l => (l, svc.state))) := by
  unfold serviceUndo
  rcases hu : undo svc.history with ⟨o, hist'⟩
  rw [hu] at h
  simp only at h
  subst h
  rfl

theorem C10_witness :
    serviceUndo exRemovalService 7 =
      (true,
       { exRemovalService with
           history := { events := [.window_removed "w9" 1], position := -1,
                        maxSize := 100 } },
       [exRemovalService.state],
       [(3, exRemovalService.state), (4, exRemovalService.state)]) := by
  have h := C10_undo_removal_noop exRemovalService 7 "w9" 1 (by rfl)
  rw [h]
  rfl

theorem upsertList_eq_replaceOrAppend (ws : List Window) (w : Window) :
    (match ws.findIdx? (fun x => x.id = w.id) with
     | some i => ws.set i w
     | none => ws ++ [w]) = replaceOrAppend ws w := by
  induction ws with
  | nil => rfl
  | cons x xs ih =>
    by_cases hx : x.id = w.id
    · simp [List.findIdx?_cons, hx, replaceOrAppend]
    · rw [replaceOrAppend, if_neg hx, ← ih]
      simp only [List.findIdx?_cons, hx, decide_eq_true_eq, if_false,
        List.findIdx?_start_succ]
      cases hfx : xs.findIdx? (fun x => decide (x.id = w.id)) 0 with
      | none => simp [hx]
      | some i => simp [hx]

theorem upsertWindow_windows (b : BoardState) (w : Window) (now : Nat) :
    (upsertWindow b w now).windows = replaceOrAppend b.windows w :=
  upsertList_eq_replaceOrAppend b.windows w

theorem mem_replaceOrAppend {ws : List Window} {w a : Window}
    (h : a ∈ replaceOrAppend ws w) : a ∈ ws ∨ a = w := by
  induction ws with
  | nil =>
    rw [replaceOrAppend] at h
    right
    simpa using h
  | cons x xs ih =>
    rw [replaceOrAppend] at h
    by_cases hx : x.id = w.id
    · rw [if_pos hx] at h
      rcases List.mem_cons.mp h with h | h
      · right; exact h
      · left; exact List.mem_cons_of_mem _ h
    · rw [if_neg hx] at h
      rcases List.mem_cons.mp h with h | h
      · left; exact h ▸ List.mem_cons_self _ _
      · rcases ih h with h | h
        · left; exact List.mem_cons_of_mem _ h
        · right; exact h

theorem replaceOrAppend_valid (ws : List Window) (w : Window)
    (hv : WindowsValid ws)
    (hsafe : ∀ x ∈ ws, x.id ≠ w.id → x.columnId = w.columnId → x.order ≠ w.order) :
    WindowsValid (replaceOrAppend ws w) := by
  induction ws with
  | nil =>
    refine ⟨by simp [replaceOrAppend], ?_⟩
    intro a ha b hb hab _
    rw [replaceOrAppend] at ha hb
    simp only [List.mem_singleton] at ha hb
    rw [ha, hb] at hab
    exact absurd rfl hab
  | cons x xs ih =>
    obtain ⟨hnd, hord⟩ := hv
    rw [List.map_cons, List.nodup_cons] at hnd
    rw [replaceOrAppend]
    by_cases hx : x.id = w.id
    · rw [if_pos hx]
      constructor
      · rw [List.map_cons, List.nodup_cons]
        exact ⟨hx ▸ hnd.1, hnd.2⟩
      · intro a ha b hb hab hcol
        rcases List.mem_cons.mp ha with ha1 | ha2
        · rcases List.mem_cons.mp hb with hb1 | hb2
          · rw [ha1, hb1] at hab
            exact absurd rfl hab
          · rw [ha1] at hab hcol ⊢
            intro horder
            exact hsafe b (List.mem_cons_of_mem _ hb2) (fun hh => hab hh.symm)
              hcol.symm horder.symm
        · rcases List.mem_cons.mp hb with hb1 | hb2
          · rw [hb1] at hab hcol ⊢
            exact hsafe a (List.mem_cons_of_mem _ ha2) hab hcol
          · exact hord a (List.mem_cons_of_mem _ ha2) b (List.mem_cons_of_mem _ hb2)
              hab hcol
    · rw [if_neg hx]
      have ihv : WindowsValid (replaceOrAppend xs w) := by
        refine ih ⟨hnd.2, ?_⟩ ?_
        · intro a ha b hb
          exact hord a (List.mem_cons_of_mem _ ha) b (List.mem_cons_of_mem _ hb)
        · intro y hy
          exact hsafe y (List.mem_cons_of_mem _ hy)
      constructor
      · rw [List.map_cons, List.nodup_cons]
        refine ⟨?_, ihv.1⟩
        intro hmem
        obtain ⟨c, hc, hcid⟩ := List.mem_map.mp hmem
        rcases mem_replaceOrAppend hc with hc1 | hc2
        · exact hnd.1 (hcid ▸ List.mem_map_of_mem Window.id hc1)
        · rw [hc2] at hcid
          exact hx hcid.symm
      · intro a ha b hb hab hcol
        rcases List.mem_cons.mp ha with ha1 | ha2
        · rcases List.mem_cons.mp hb with hb1 | hb2
          · rw [ha1, hb1] at hab
            exact absurd rfl hab
          · rw [ha1] at hab hcol ⊢
            rcases mem_replaceOrAppend hb2 with hb3 | hb4
            · exact hord x (List.mem_cons_self _ _) b (List.mem_cons_of_mem _ hb3)
                hab hcol
            · rw [hb4] at hab hcol ⊢
              exact hsafe x (List.mem_cons_self _ _) hx hcol
        · rcases List.mem_cons.mp hb with hb1 | hb2
          · rw [hb1] at hab hcol ⊢
            rcases mem_replaceOrAppend ha2 with ha3 | ha4
            · exact hord a (List.mem_cons_of_mem _ ha3) x (List.mem_cons_self _ _)
                hab hcol
            · rw [ha4] at hab hcol ⊢
              intro horder
              exact hsafe x (List.mem_cons_self _ _) hx hcol.symm horder.symm
          · exact ihv.2 a ha2 b hb2 hab hcol

theorem upsertWindow_valid (b : BoardState) (w : Window) (now : Nat)
    (hv : validBoard b)
    (hsafe : ∀ x ∈ b.windows, x.id ≠ w.id → x.columnId = w.columnId → x.order ≠ w.order) :
    validBoard (upsertWindow b w now) := by
  show WindowsValid (upsertWindow b w now).windows
  rw [upsertWindow_windows]
  exact replaceOrAppend_valid b.windows w hv hsafe

theorem windowsValid_sublist {ws₁ ws₂ : List Window} (hs : ws₁.Sublist ws₂)
    (hv : WindowsValid ws₂) : WindowsValid ws₁ := by
  obtain ⟨hnd, hord⟩ := hv
  refine ⟨(hs.map Window.id).nodup hnd, ?_⟩
  intro a ha b hb
  exact hord a (hs.subset ha) b (hs.subset hb)

theorem removeWindow_valid (b : BoardState) (wid : String) (now : Nat)
    (hv : validBoard b) : validBoard (removeWindow b wid now) :=
  windowsValid_sublist (List.filter_sublist b.windows) hv

theorem specMoveAdjust_id_eq (r : Window) (wid col : String) (ord : Int) (now : Nat)
    (w : Window) : (specMoveAdjust r wid col ord now w).id = w.id := by
  unfold specMoveAdjust
  split_ifs <;> rfl

theorem specMoveAdjust_columnId (r : Window) (wid col : String) (ord : Int) (now : Nat)
    (w : Window) : (specMoveAdjust r wid col ord now w).columnId
      = if w.id = wid then col else w.columnId := by
  unfold specMoveAdjust
  by_cases h : w.id = wid
  · rw [if_pos h, if_pos h]
  · rw [if_neg h, if_neg h]

theorem specMoveAdjust_order (r : Window) (wid col : String) (ord : Int) (now : Nat)
    (w : Window) : (specMoveAdjust r wid col ord now w).order
      = if w.id = wid then ord else
          w.order
            - (if r.columnId ≠ col ∧ w.columnId = r.columnId ∧ w.order > r.order
                then 1 else 0)
            + (if w.columnId = col ∧ w.order ≥ ord then 1 else 0) := by
  unfold specMoveAdjust
  by_cases h : w.id = wid
  · rw [if_pos h, if_pos h]
  · rw [if_neg h, if_neg h]

theorem specMoveAdjust_distinct
    (ws : List Window) (r : Window) (wid col : String) (ord : Int) (now : Nat)
    (hord : ∀ a ∈ ws, ∀ b ∈ ws, a.id ≠ b.id → a.columnId = b.columnId → a.order ≠ b.order)
    (hrmem : r ∈ ws) (hrid : r.id = wid)
    (a : Window) (ha : a ∈ ws) (c : Window) (hc : c ∈ ws) (hac : a.id ≠ c.id)
    (hcol : (specMoveAdjust r wid col ord now a).columnId
      = (specMoveAdjust r wid col ord now c).columnId) :
    (specMoveAdjust r wid col ord now a).order
      ≠ (specMoveAdjust r wid col ord now c).order := by
  rw [specMoveAdjust_columnId, specMoveAdjust_columnId] at hcol
  rw [specMoveAdjust_order, specMoveAdjust_order]
  by_cases haw : a.id = wid <;> by_cases hcw : c.id = wid
  · exact absurd (haw.trans hcw.symm) hac
  · rw [if_pos haw] at hcol ⊢
    rw [if_neg hcw] at hcol ⊢
    have hdec_c : ¬ (r.columnId ≠ col ∧ c.columnId = r.columnId ∧ c.order > r.order) := by
      rintro ⟨h1, h2, -⟩
      exact h1 (h2.symm.trans hcol.symm)
    rw [if_neg hdec_c]
    by_cases hco : c.order ≥ ord
    · have hinc_c : c.columnId = col ∧ c.order ≥ ord := ⟨hcol.symm, hco⟩
      rw [if_pos hinc_c]
      omega
    · have hinc_c : ¬ (c.columnId = col ∧ c.order ≥ ord) := fun hh => hco hh.2
      rw [if_neg hinc_c]
      omega
  · rw [if_neg haw] at hcol ⊢
    rw [if_pos hcw] at hcol ⊢
    have hdec_a : ¬ (r.columnId ≠ col ∧ a.columnId = r.columnId ∧ a.order > r.order) := by
      rintro ⟨h1, h2, -⟩
      exact h1 (h2.symm.trans hcol)
    rw [if_neg hdec_a]
    by_cases hao : a.order ≥ ord
    · have hinc_a : a.columnId = col ∧ a.order ≥ ord := ⟨hcol, hao⟩
      rw [if_pos hinc_a]
      omega
    · have hinc_a : ¬ (a.columnId = col ∧ a.order ≥ ord) := fun hh => hao hh.2
      rw [if_neg hinc_a]
      omega
  · rw [if_neg haw] at hcol ⊢
    rw [if_neg hcw] at hcol ⊢
    have hacord : a.order ≠ c.order := hord a ha c hc hac hcol
    by_cases hdest : a.columnId = col
    · have hdest_c : c.columnId = col := hcol.symm.trans hdest
      have hdec_a : ¬ (r.columnId ≠ col ∧ a.columnId = r.columnId ∧ a.order > r.order) := by
        rintro ⟨h1, h2, -⟩
        exact h1 (h2.symm.trans hdest)
      have hdec_c : ¬ (r.columnId ≠ col ∧ c.columnId = r.columnId ∧ c.order > r.order) := by
        rintro ⟨h1, h2, -⟩
        exact h1 (h2.symm.trans hdest_c)
      rw [if_neg hdec_a, if_neg hdec_c]
      by_cases hia : a.order ≥ ord <;> by_cases hic : c.order ≥ ord
      · have h1 : a.columnId = col ∧ a.order ≥ ord := ⟨hdest, hia⟩
        have h2 : c.columnId = col ∧ c.order ≥ ord := ⟨hdest_c, hic⟩
        rw [if_pos h1, if_pos h2]
        omega
      · have h1 : a.columnId = col ∧ a.order ≥ ord := ⟨hdest, hia⟩
        have h2 : ¬ (c.columnId = col ∧ c.order ≥ ord) := fun hh => hic hh.2
        rw [if_pos h1, if_neg h2]
        omega
      · have h1 : ¬ (a.columnId = col ∧ a.order ≥ ord) := fun hh => hia hh.2
        have h2 : c.columnId = col ∧ c.order ≥ ord := ⟨hdest_c, hic⟩
        rw [if_neg h1, if_pos h2]
        omega
      · have h1 : ¬ (a.columnId = col ∧ a.order ≥ ord) := fun hh => hia hh.2
        have h2 : ¬ (c.columnId = col ∧ c.order ≥ ord) := fun hh => hic hh.2
        rw [if_neg h1, if_neg h2]
        omega
    · have hdest_c : ¬ (c.columnId = col) := fun hh => hdest (hcol.trans hh)
      have hinc_a : ¬ (a.columnId = col ∧ a.order ≥ ord) := fun hh => hdest hh.1
      have hinc_c : ¬ (c.columnId = col ∧ c.order ≥ ord) := fun hh => hdest_c hh.1
      rw [if_neg hinc_a, if_neg hinc_c]
      by_cases hsrc : r.columnId ≠ col ∧ a.columnId = r.columnId
      · have hsrc_c : c.columnId = r.columnId := hcol.symm.trans hsrc.2
        have har : a.order ≠ r.order := by
          by_cases harid : a.id = r.id
          · exact absurd (harid.trans hrid) haw
          · exact hord a ha r hrmem harid hsrc.2
        have hcr : c.order ≠ r.order := by
          by_cases hcrid : c.id = r.id
          · exact absurd (hcrid.trans hrid) hcw
          · exact hord c hc r hrmem hcrid hsrc_c
        by_cases hda : a.order > r.order <;> by_cases hdc : c.order > r.order
        · have h1 : r.columnId ≠ col ∧ a.columnId = r.columnId ∧ a.order > r.order :=
            ⟨hsrc.1, hsrc.2, hda⟩
          have h2 : r.columnId ≠ col ∧ c.columnId = r.columnId ∧ c.order > r.order :=
            ⟨hsrc.1, hsrc_c, hdc⟩
          rw [if_pos h1, if_pos h2]
          omega
        · have h1 : r.columnId ≠ col ∧ a.columnId = r.columnId ∧ a.order > r.order :=
            ⟨hsrc.1, hsrc.2, hda⟩
          have h2 : ¬ (r.columnId ≠ col ∧ c.columnId = r.columnId ∧ c.order > r.order) :=
            fun hh => hdc hh.2.2
          rw [if_pos h1, if_neg h2]
          omega
        · have h1 : ¬ (r.columnId ≠ col ∧ a.columnId = r.columnId ∧ a.order > r.order) :=
            fun hh => hda hh.2.2
          have h2 : r.columnId ≠ col ∧ c.columnId = r.columnId ∧ c.order > r.order :=
            ⟨hsrc.1, hsrc_c, hdc⟩
          rw [if_neg h1, if_pos h2]
          omega
        · have h1 : ¬ (r.columnId ≠ col ∧ a.columnId = r.columnId ∧ a.order > r.order) :=
            fun hh => hda hh.2.2
          have h2 : ¬ (r.columnId ≠ col ∧ c.columnId = r.columnId ∧ c.order > r.order) :=
            fun hh => hdc hh.2.2
          rw [if_neg h1, if_neg h2]
          omega
      · have hda : ¬ (r.columnId ≠ col ∧ a.columnId = r.columnId ∧ a.order > r.order) :=
          fun hh => hsrc ⟨hh.1, hh.2.1⟩
        have hdc : ¬ (r.columnId ≠ col ∧ c.columnId = r.columnId ∧ c.order > r.order) :=
          fun hh => hsrc ⟨hh.1, hcol.trans hh.2.1⟩
        rw [if_neg hda, if_neg hdc]
        omega

theorem moveWindow_valid (b : BoardState) (wid col : String) (ord : Int) (now : Nat)
    (hv : validBoard b) : validBoard (moveWindow b wid col ord now) := by
  unfold moveWindow
  cases hfind : findWindow b wid with
  | none => exact hv
  | some r =>
    obtain ⟨hnd, hord⟩ := hv
    have hrmem : r ∈ b.windows := List.mem_of_find?_eq_some hfind
    have hrid : r.id = wid := by simpa using List.find?_some hfind
    have hfeq : b.windows.map (moveAdjust r wid col ord now)
        = b.windows.map (specMoveAdjust r wid col ord now) :=
      List.map_congr_left (fun a _ => moveAdjust_eq_specMoveAdjust r wid col ord now a)
    show WindowsValid (b.windows.map (moveAdjust r wid col ord now))
    rw [hfeq]
    constructor
    · have hids : (b.windows.map (specMoveAdjust r wid col ord now)).map Window.id
          = b.windows.map Window.id := by
        rw [List.map_map]
        exact List.map_congr_left (fun a _ => specMoveAdjust_id_eq r wid col ord now a)
      rw [hids]
      exact hnd
    · intro a' ha' c' hc' hac hcol
      obtain ⟨a, ha, rfl⟩ := List.mem_map.mp ha'
      obtain ⟨c, hc, rfl⟩ := List.mem_map.mp hc'
      have hac' : a.id ≠ c.id := by
        rwa [specMoveAdjust_id_eq, specMoveAdjust_id_eq] at hac
      exact specMoveAdjust_distinct b.windows r wid col ord now hord hrmem hrid
        a ha c hc hac' hcol

/-- C5: the claim fails as stated — from the valid board holding only
`w1` (`backlog`, order 0), the single reachable step
`upsert`(`w2` with column `backlog`, order 0) produces a board in which
the two distinct records `w1` and `w2` share column `backlog` and order
0: `upsertWindow` imposes no constraint on the inserted record's
order. -/
theorem C5_cex_upsert_duplicate_order :
    validBoard cexBoard1 ∧
    (applyOps cexBoard1 [BoardOp.upsert cexWin2 5]).windows
      = [createWindow "w1" "Test1" "/t1" "backlog" 0 1, cexWin2] ∧
    (createWindow "w1" "Test1" "/t1" "backlog" 0 1).id ≠ cexWin2.id ∧
    (createWindow "w1" "Test1" "/t1" "backlog" 0 1).columnId = cexWin2.columnId ∧
    (createWindow "w1" "Test1" "/t1" "backlog" 0 1).order = cexWin2.order := by
  refine ⟨by decide, rfl, by decide, rfl, rfl⟩

/-- C5 (amended): for every board valid in the sense of §3 (unique
record ids, and no two distinct records of a column sharing an order)
and every finite sequence of `upsert`/`remove`/`move` operations in
which each `upsert`'s record does not collide with a distinct surviving
record of the same column on `order`, the resulting board is again
valid — in particular no two records with the same `columnId` have the
same `order` value.  `remove` and `move` need no side condition. -/
theorem C5_order_uniqueness_invariant (b : BoardState) (ops : List BoardOp)
    (hv : validBoard b) (hs : SafeSeq b ops) : validBoard (applyOps b ops) := by
  induction ops generalizing b with
  | nil => exact hv
  | cons op rest ih =>
    obtain ⟨h1, h2⟩ := hs
    refine ih (applyOp b op) ?_ h2
    cases op with
    | upsert w now => exact upsertWindow_valid b w now hv h1
    | remove wid now => exact removeWindow_valid b wid now hv
    | move wid toCol toOrd now => exact moveWindow_valid b wid toCol toOrd now hv

theorem C5_witness :
    validBoard cexBoard1 ∧
    SafeSeq cexBoard1
      [BoardOp.upsert (createWindow "w2" "T2" "/t2" "backlog" 1 2) 2,
       BoardOp.move "w1" "current" 0 3,
       BoardOp.remove "w2" 4] ∧
    validBoard (applyOps cexBoard1
      [BoardOp.upsert (createWindow "w2" "T2" "/t2" "backlog" 1 2) 2,
       BoardOp.move "w1" "current" 0 3,
       BoardOp.remove "w2" 4]) :=
  ⟨by decide, by decide,
   C5_order_uniqueness_invariant cexBoard1
     [BoardOp.upsert (createWindow "w2" "T2" "/t2" "backlog" 1 2) 2,
      BoardOp.move "w1" "current" 0 3,
      BoardOp.remove "w2" 4] (by decide) (by decide)⟩

end KanVis
